import Mathlib

/-!
Verification of the install-manifest store of `xunlei` (`src/main.rs`).

The manifest file at `/etc/.thunder` is modelled as `Option String`
(`none` = the file is absent, `some c` = the file exists with content `c`).
`InstallConfig` mirrors the Rust struct of the same name.  The three
operations `write_to_file`, `read_from_file` and `remove_file` are shallow
embeddings of the methods of `impl InstallConfig`; the file-system model is
error-free, so the only errors that can surface are the ones raised by the
code itself (`bail!` for a missing file, `value.parse::<u32>()?` failures).

Rust string primitives used by the code are modelled on `List Char`:
`str::split('=')` as `splitOnChar '='`, `str::trim` as `trimList`
(whitespace per `isUnicodeWhitespace`, Rust's Unicode White_Space set),
`BufRead::lines` as `splitLines`, and the `Display` of `u32` as `natRepr`.
`PathBuf` round-trips through `String` unchanged (`FromStr` for `PathBuf`
is infallible and `Path::display` of UTF-8 input is the identity).
-/

namespace Xunlei

/-- Mirror of the Rust struct `InstallConfig` (src/main.rs lines 47-66).
`uid`/`gid` are `u32` in Rust; they are modelled as `Nat` together with
explicit `< 2^32` bounds where they matter.  Paths are modelled as the
UTF-8 strings they display as. -/
structure InstallConfig where
  uid : Nat
  gid : Nat
  package : Option String
  config_path : String
  download_path : String
  mount_bind_download_path : String
  deriving DecidableEq, Repr

/-- Errors the manifest store can raise.  `notInstalled` models the
`anyhow::bail!("… not found")` of `read_from_file`; `parseErr` models a
failing `value.parse::<u32>()?`. -/
inductive MErr where
  | notInstalled
  | parseErr
  deriving DecidableEq, Repr

/-- Rust `str::split(sep)` on character lists: `""` gives `[""]`, a
leading/trailing separator yields an empty chunk. -/
def splitOnChar (sep : Char) : List Char → List (List Char)
  | [] => [[]]
  | c :: cs =>
    match splitOnChar sep cs with
    | [] => [[c]]
    | p :: ps => if c = sep then [] :: p :: ps else (c :: p) :: ps

/-- Rust `char::is_whitespace`: the Unicode White_Space property
(U+0009..U+000D, U+0020, U+0085, U+00A0, U+1680, U+2000..U+200A, U+2028,
U+2029, U+202F, U+205F, U+3000). -/
def isUnicodeWhitespace (c : Char) : Bool :=
  (9 ≤ c.toNat && c.toNat ≤ 13) || c.toNat = 32 || c.toNat = 133 ||
    c.toNat = 160 || c.toNat = 5760 ||
    (8192 ≤ c.toNat && c.toNat ≤ 8202) || c.toNat = 8232 ||
    c.toNat = 8233 || c.toNat = 8239 || c.toNat = 8287 || c.toNat = 12288

/-- Rust `str::trim`: drop whitespace from both ends. -/
def trimList (cs : List Char) : List Char :=
  ((cs.dropWhile isUnicodeWhitespace).reverse.dropWhile
    isUnicodeWhitespace).reverse

/-- Strip one trailing carriage return, as `BufRead::lines` does on a line
that was terminated by `"\r\n"`. -/
def rstripCR (cs : List Char) : List Char :=
  match cs.getLast? with
  | some '\r' => cs.dropLast
  | _ => cs

/-- Post-process the chunks of `splitOnChar '\n'` the way `BufRead::lines`
does: a final empty chunk (trailing newline) yields no line, every chunk
that was terminated by `'\n'` loses a trailing `'\r'`. -/
def fixLines : List (List Char) → List (List Char)
  | [] => []
  | [last] => if last = [] then [] else [last]
  | p :: rest => rstripCR p :: fixLines rest

/-- Model of iterating `BufRead::lines` over the whole file content. -/
def splitLines (s : String) : List String :=
  (fixLines (splitOnChar '\n' s.data)).map String.mk

/-- Decimal value of a digit string, most significant digit first;
`none` on the first non-digit.  `digitsVal [] a = some a`: emptiness is
rejected separately, in `parseU32`. -/
def digitsVal : List Char → Nat → Option Nat
  | [], acc => some acc
  | c :: cs, acc =>
    if c.isDigit then digitsVal cs (acc * 10 + (c.toNat - 48)) else none

/-- Model of Rust `str::parse::<u32>()`: optional leading `'+'`, then a
non-empty digit string whose value fits in 32 bits. -/
def parseU32 (cs : List Char) : Option Nat :=
  let cs := match cs with
    | '+' :: rest => rest
    | other => other
  match cs with
  | [] => none
  | _ =>
    match digitsVal cs 0 with
    | none => none
    | some n => if n < 4294967296 then some n else none

/-- The five mutable locals of `read_from_file` (src/main.rs lines 107-111). -/
structure RState where
  uid : Nat
  gid : Nat
  config_path : String
  download_path : String
  mount_bind_download_path : String
  deriving DecidableEq, Repr

/-- One iteration of the `for line in reader.lines()` loop of
`read_from_file` (src/main.rs lines 115-142): trim, skip blank lines,
split on `'='`, take the first chunk as key and the second as value
(`split.next().unwrap_or_default()` twice), then dispatch on the key. -/
def processLine (st : RState) (l : String) : Except MErr RState :=
  let line := trimList l.data
  if line = [] then .ok st
  else
    let parts := splitOnChar '=' line
    let key := parts.headD []
    let value := (parts.drop 1).headD []
    if key = "uid".data then
      match parseU32 value with
      | some n => .ok { st with uid := n }
      | none => .error .parseErr
    else if key = "gid".data then
      match parseU32 value with
      | some n => .ok { st with gid := n }
      | none => .error .parseErr
    else if key = "config_path".data then
      .ok { st with config_path := String.mk value }
    else if key = "download_path".data then
      .ok { st with download_path := String.mk value }
    else if key = "mount_bind_download_path".data then
      .ok { st with mount_bind_download_path := String.mk value }
    else
      .ok st

/-- The whole loop of `read_from_file`, line by line; the first error
aborts (the `?` operator). -/
def processLines : List String → RState → Except MErr RState
  | [], st => .ok st
  | l :: ls, st =>
    match processLine st l with
    | .ok st' => processLines ls st'
    | .error e => .error e

/-- `InstallConfig::read_from_file` (src/main.rs lines 101-152): error if
the file is absent, otherwise run the line loop from all-default locals and
assemble the result with `package: None`. -/
def read_from_file (fs : Option String) : Except MErr InstallConfig :=
  match fs with
  | none => .error .notInstalled
  | some content =>
    match processLines (splitLines content) ⟨0, 0, "", "", ""⟩ with
    | .error e => .error e
    | .ok st =>
      .ok ⟨st.uid, st.gid, none, st.config_path, st.download_path,
        st.mount_bind_download_path⟩

/-- Decimal rendering of a natural number, least-significant digit peeled
off first onto an accumulator; fuel-based so that it computes by kernel
reduction.  Models the `Display` implementation of `u32` used by
`writeln!(file, "uid={}", self.uid)`. -/
def natToDigitsAux : Nat → Nat → List Char → List Char
  | 0, _, acc => acc
  | fuel + 1, n, acc =>
    let acc' := Nat.digitChar (n % 10) :: acc
    if n < 10 then acc' else natToDigitsAux fuel (n / 10) acc'

/-- Decimal rendering of a natural number as a string. -/
def natRepr (n : Nat) : String :=
  ⟨natToDigitsAux (n + 1) n []⟩

/-- The exact content `write_to_file` produces on a fresh file: five
`writeln!` calls (src/main.rs lines 85-93). -/
def manifestContent (c : InstallConfig) : String :=
  "uid=" ++ natRepr c.uid ++ "\n" ++
  "gid=" ++ natRepr c.gid ++ "\n" ++
  "config_path=" ++ c.config_path ++ "\n" ++
  "download_path=" ++ c.download_path ++ "\n" ++
  "mount_bind_download_path=" ++ c.mount_bind_download_path ++ "\n"

/-- `InstallConfig::write_to_file` (src/main.rs lines 81-98): if the file
already exists the body is skipped and `Ok(())` is returned with the file
untouched; otherwise the file is created with the five key lines. -/
def write_to_file (c : InstallConfig) (fs : Option String) :
    Except MErr (Option String) :=
  match fs with
  | some content => .ok (some content)
  | none => .ok (some (manifestContent c))

/-- `InstallConfig::remove_file` (src/main.rs lines 72-78): remove the file
if it exists, succeed either way. -/
def remove_file (_c : InstallConfig) (fs : Option String) :
    Except MErr (Option String) :=
  match fs with
  | some _ => .ok none
  | none => .ok none

/-- Outcome of the `Commands::Run` arm of `main` (src/main.rs lines
190-192): `read_from_file()?` either propagates the error before `Serve`
is constructed, or hands the manifest to `Serve::new`. -/
inductive RunOutcome where
  | failed (e : MErr)
  | served (c : InstallConfig)
  deriving DecidableEq, Repr

/-- The `Commands::Run` dispatch of `main`. -/
def runCommand (fs : Option String) : RunOutcome :=
  match read_from_file fs with
  | .error e => .failed e
  | .ok c => .served c

/-- The manifest argument the `Commands::Uninstall` arm of `main`
(src/main.rs lines 186-189) passes to `XunleiUninstall`:
`read_from_file().map_or(None, |v| Some(v))`. -/
def uninstallArg (fs : Option String) : Option InstallConfig :=
  match read_from_file fs with
  | .ok v => some v
  | .error _ => none

/-- The key a line contributes to the dispatch of `read_from_file`: first
`'='`-chunk of the trimmed line. -/
def lineKey (l : String) : String :=
  String.mk ((splitOnChar '=' (trimList l.data)).headD [])

/-- The five keys `read_from_file` recognises. -/
def knownKeys : List String :=
  ["uid", "gid", "config_path", "download_path", "mount_bind_download_path"]

/-- A path string that survives one `writeln!`/`lines`/`trim`/`split('=')`
round trip unchanged: no newline, no carriage return, no `'='`, and no
trailing whitespace (leading and interior whitespace are fine, as is the
empty path). -/
def pathOk (p : String) : Bool :=
  p.data.all (fun c => c ≠ '\n' && c ≠ '\r' && c ≠ '=') &&
    (match p.data.getLast? with
     | some c => !(isUnicodeWhitespace c)
     | none => true)

/-- A path string whose `writeln!` produces a single line of the file:
no newline and no carriage return. -/
def noNLCR (p : String) : Bool :=
  p.data.all (fun c => c ≠ '\n' && c ≠ '\r')

end Xunlei

deriving instance DecidableEq for Except

namespace Xunlei

/-! ### Generic lemmas about the string primitives -/

theorem splitOnChar_ne_nil (sep : Char) (cs : List Char) :
    splitOnChar sep cs ≠ [] := by
  induction cs with
  | nil => simp [splitOnChar]
  | cons c cs ih =>
    simp only [splitOnChar]
    rcases h : splitOnChar sep cs with _ | ⟨p, ps⟩
    · simp
    · by_cases hc : c = sep <;> simp [hc]

theorem splitOnChar_of_no_sep (sep : Char) (cs : List Char)
    (h : ∀ c ∈ cs, c ≠ sep) : splitOnChar sep cs = [cs] := by
  induction cs with
  | nil => rfl
  | cons c cs ih =>
    have hc : c ≠ sep := h c (List.mem_cons_self c cs)
    have := ih (fun d hd => h d (List.mem_cons_of_mem c hd))
    simp only [splitOnChar, this]
    simp [hc]

theorem splitOnChar_append_sep (sep : Char) (xs ys : List Char)
    (h : ∀ c ∈ xs, c ≠ sep) :
    splitOnChar sep (xs ++ sep :: ys) = xs :: splitOnChar sep ys := by
  induction xs with
  | nil =>
    simp only [List.nil_append, splitOnChar]
    rcases hs : splitOnChar sep ys with _ | ⟨p, ps⟩
    · exact absurd hs (splitOnChar_ne_nil sep ys)
    · simp
  | cons x xs ih =>
    have hx : x ≠ sep := h x (List.mem_cons_self x xs)
    have hih := ih (fun d hd => h d (List.mem_cons_of_mem x hd))
    simp only [List.cons_append, splitOnChar, List.append_eq]
    rw [hih]
    simp [hx]

theorem mem_of_getLast?_eq {cs : List Char} {c : Char}
    (h : cs.getLast? = some c) : c ∈ cs := by
  have hm : c ∈ cs.getLast? := Option.mem_def.mpr h
  rcases List.mem_getLast?_eq_getLast hm with ⟨hne, hc⟩
  exact hc ▸ List.getLast_mem hne

theorem dropWhile_of_all_false {p : Char → Bool} {cs : List Char}
    (h : ∀ c ∈ cs, p c = false) : cs.dropWhile p = cs := by
  induction cs with
  | nil => rfl
  | cons c cs ih =>
    rw [List.dropWhile_cons, h c (List.mem_cons_self c cs)]
    simp

theorem trimList_eq_self {cs : List Char}
    (h1 : ∀ c, cs.head? = some c → isUnicodeWhitespace c = false)
    (h2 : ∀ c, cs.getLast? = some c → isUnicodeWhitespace c = false) :
    trimList cs = cs := by
  rcases cs with _ | ⟨x, xs⟩
  · rfl
  · have hx : isUnicodeWhitespace x = false := h1 x rfl
    have hfront : (x :: xs).dropWhile isUnicodeWhitespace = x :: xs := by
      rw [List.dropWhile_cons, hx]; simp
    unfold trimList
    rw [hfront]
    rcases hrev : (x :: xs).reverse with _ | ⟨l, ls⟩
    · exact absurd hrev (by simp)
    · have hl : (x :: xs).getLast? = some l := by
        rw [← List.head?_reverse, hrev]; rfl
      have hlw : isUnicodeWhitespace l = false := h2 l hl
      have : (l :: ls).dropWhile isUnicodeWhitespace = l :: ls := by
        rw [List.dropWhile_cons, hlw]; simp
      rw [this, ← hrev, List.reverse_reverse]

theorem trimList_of_all_nonws {cs : List Char}
    (h : ∀ c ∈ cs, isUnicodeWhitespace c = false) : trimList cs = cs := by
  refine trimList_eq_self (fun c hc => ?_) (fun c hc => ?_)
  · exact h c (by rcases cs with _ | ⟨x, xs⟩ <;> simp_all)
  · exact h c (mem_of_getLast?_eq hc)

theorem rstripCR_eq_self {cs : List Char}
    (h : ∀ c, cs.getLast? = some c → c ≠ '\r') : rstripCR cs = cs := by
  unfold rstripCR
  rcases hlast : cs.getLast? with _ | c
  · rfl
  · have : c ≠ '\r' := h c hlast
    rcases hc : c with ⟨v, hv⟩
    subst hc
    split
    · simp_all
    · rfl

/-! ### Decimal rendering: the digits of `natRepr` and their value -/

/-- A character `Nat.digitChar m` for `m < 10`: a decimal digit that is not
whitespace, not `'+'`, not `'='`, not a newline and not a carriage return,
and whose code point is `48 + m`. -/
def goodDigit (c : Char) : Prop :=
  c.isDigit = true ∧ isUnicodeWhitespace c = false ∧ c ≠ '+' ∧ c ≠ '=' ∧
    c ≠ '\n' ∧ c ≠ '\r'

theorem digitChar_good {m : Nat} (h : m < 10) :
    goodDigit (Nat.digitChar m) ∧ (Nat.digitChar m).toNat = 48 + m := by
  interval_cases m <;> exact ⟨⟨by decide, by decide, by decide, by decide,
    by decide, by decide⟩, by decide⟩

theorem natToDigitsAux_acc (fuel : Nat) :
    ∀ n acc, natToDigitsAux fuel n acc = natToDigitsAux fuel n [] ++ acc := by
  induction fuel with
  | zero => intro n acc; rfl
  | succ fuel ih =>
    intro n acc
    simp only [natToDigitsAux]
    by_cases h : n < 10
    · simp [h]
    · simp only [h, if_false]
      rw [ih (n / 10) (Nat.digitChar (n % 10) :: acc),
        ih (n / 10) [Nat.digitChar (n % 10)], List.append_assoc]
      rfl

theorem natToDigitsAux_good (fuel : Nat) :
    ∀ n, ∀ c ∈ natToDigitsAux fuel n [], goodDigit c := by
  induction fuel with
  | zero => intro n c hc; simp [natToDigitsAux] at hc
  | succ fuel ih =>
    intro n c hc
    simp only [natToDigitsAux] at hc
    by_cases h : n < 10
    · simp [h] at hc
      exact hc ▸ (digitChar_good (Nat.mod_lt n (by norm_num))).1
    · simp only [h, if_false] at hc
      rw [natToDigitsAux_acc] at hc
      rcases List.mem_append.mp hc with hin | hin
      · exact ih (n / 10) c hin
      · simp at hin
        exact hin ▸ (digitChar_good (Nat.mod_lt n (by norm_num))).1

theorem digitsVal_append (xs ys : List Char) :
    ∀ a, digitsVal (xs ++ ys) a =
      match digitsVal xs a with
      | some m => digitsVal ys m
      | none => none := by
  induction xs with
  | nil => intro a; rfl
  | cons c cs ih =>
    intro a
    simp only [List.cons_append, digitsVal]
    by_cases h : c.isDigit <;> simp [h, ih]

theorem natToDigitsAux_val (fuel : Nat) :
    ∀ n, n < fuel → ∀ a,
      digitsVal (natToDigitsAux fuel n []) a =
        some (a * 10 ^ (natToDigitsAux fuel n []).length + n) := by
  induction fuel with
  | zero => intro n hn; omega
  | succ fuel ih =>
    intro n hn a
    by_cases h : n < 10
    · have hd := digitChar_good (Nat.mod_lt n (by norm_num))
      simp only [natToDigitsAux, h, if_true]
      simp only [digitsVal, hd.1.1, if_true, List.length_cons,
        List.length_nil]
      have : (Nat.digitChar (n % 10)).toNat - 48 = n % 10 := by
        rw [hd.2]; omega
      rw [this, Nat.mod_eq_of_lt h]
      simp
    · have hd := digitChar_good (Nat.mod_lt n (by norm_num))
      have hlt : n / 10 < fuel := by
        have : n / 10 < n := Nat.div_lt_self (by omega) (by norm_num)
        omega
      simp only [natToDigitsAux, h, if_false]
      rw [natToDigitsAux_acc fuel (n / 10) [Nat.digitChar (n % 10)]]
      rw [digitsVal_append, ih (n / 10) hlt a]
      simp only [digitsVal, hd.1.1, if_true]
      rw [List.length_append]
      simp only [List.length_cons, List.length_nil, Option.some.injEq]
      have hto : (Nat.digitChar (n % 10)).toNat - 48 = n % 10 := by
        rw [hd.2]; omega
      rw [hto, pow_succ, ← mul_assoc]
      have hdm : 10 * (n / 10) + n % 10 = n := Nat.div_add_mod n 10
      generalize a * 10 ^ (natToDigitsAux fuel (n / 10) []).length = b
      omega

theorem natRepr_data (n : Nat) :
    (natRepr n).data = natToDigitsAux (n + 1) n [] := rfl

theorem natRepr_good (n : Nat) : ∀ c ∈ (natRepr n).data, goodDigit c := by
  rw [natRepr_data]
  exact natToDigitsAux_good (n + 1) n

theorem natRepr_ne_nil (n : Nat) : (natRepr n).data ≠ [] := by
  rw [natRepr_data]
  simp only [natToDigitsAux]
  by_cases h : n < 10
  · simp [h]
  · simp only [h, if_false]
    rw [natToDigitsAux_acc]
    simp

theorem parseU32_cons_of_ne_plus {c : Char} {cs : List Char} (h : c ≠ '+') :
    parseU32 (c :: cs) =
      match digitsVal (c :: cs) 0 with
      | none => none
      | some n => if n < 4294967296 then some n else none := by
  unfold parseU32
  have hm : (match c :: cs with
      | '+' :: rest => rest
      | other => other) = c :: cs := by
    split
    · rename_i heq
      injection heq with h1 h2
      exact absurd h1 h
    · rfl
  rw [hm]

theorem parseU32_natRepr {n : Nat} (h : n < 4294967296) :
    parseU32 (natRepr n).data = some n := by
  have hgood := natRepr_good n
  have hne := natRepr_ne_nil n
  have hval : digitsVal (natRepr n).data 0 =
      some (0 * 10 ^ (natRepr n).data.length + n) := by
    rw [natRepr_data]
    exact natToDigitsAux_val (n + 1) n (Nat.lt_succ_self n) 0
  rw [Nat.zero_mul, Nat.zero_add] at hval
  rcases hds : (natRepr n).data with _ | ⟨c, cs⟩
  · exact absurd hds hne
  · have hc : goodDigit c := hgood c (hds ▸ List.mem_cons_self c cs)
    rw [hds] at hval
    rw [parseU32_cons_of_ne_plus hc.2.2.1, hval]
    simp [h]

/-! ### Splitting a freshly written manifest back into its five lines -/

theorem mk_data (s : String) : String.mk s.data = s := rfl

theorem mem_append_chars {A B : List Char} {P : Char → Prop}
    (hA : ∀ c ∈ A, P c) (hB : ∀ c ∈ B, P c) : ∀ c ∈ A ++ B, P c :=
  fun c hc => (List.mem_append.mp hc).elim (hA c) (hB c)

theorem noNLCR_spec {p : String} (h : noNLCR p = true) :
    ∀ c ∈ p.data, c ≠ '\n' ∧ c ≠ '\r' := by
  unfold noNLCR at h
  intro c hc
  have := List.all_eq_true.mp h c hc
  simpa [Bool.and_eq_true, decide_eq_true_eq] using this

theorem pathOk_parts {p : String} (h : pathOk p = true) :
    p.data.all (fun c => c ≠ '\n' && c ≠ '\r' && c ≠ '=') = true ∧
      (match p.data.getLast? with
       | some c => !(isUnicodeWhitespace c)
       | none => true) = true := by
  unfold pathOk at h
  exact Bool.and_eq_true_iff.mp h

theorem pathOk_to_noNLCR {p : String} (h : pathOk p = true) :
    noNLCR p = true := by
  have hall := (pathOk_parts h).1
  unfold noNLCR
  refine List.all_eq_true.mpr (fun c hc => ?_)
  have := List.all_eq_true.mp hall c hc
  simp only [Bool.and_eq_true, decide_eq_true_eq] at this ⊢
  exact ⟨this.1.1, this.1.2⟩

theorem pathOk_spec {p : String} (h : pathOk p = true) :
    (∀ c ∈ p.data, c ≠ '\n' ∧ c ≠ '\r' ∧ c ≠ '=') ∧
      (∀ c, p.data.getLast? = some c → isUnicodeWhitespace c = false) := by
  rcases pathOk_parts h with ⟨hall, hlast⟩
  constructor
  · intro c hc
    have := List.all_eq_true.mp hall c hc
    simp only [Bool.and_eq_true, decide_eq_true_eq] at this
    exact ⟨this.1.1, this.1.2, this.2⟩
  · intro c hc
    rw [hc] at hlast
    simpa using hlast

theorem splitLines_of_data_five {s : String} {L1 L2 L3 L4 L5 : List Char}
    (hs : s.data =
      L1 ++ '\n' :: (L2 ++ '\n' :: (L3 ++ '\n' :: (L4 ++ '\n' ::
        (L5 ++ ['\n'])))))
    (h1 : ∀ c ∈ L1, c ≠ '\n') (h2 : ∀ c ∈ L2, c ≠ '\n')
    (h3 : ∀ c ∈ L3, c ≠ '\n') (h4 : ∀ c ∈ L4, c ≠ '\n')
    (h5 : ∀ c ∈ L5, c ≠ '\n')
    (g1 : rstripCR L1 = L1) (g2 : rstripCR L2 = L2)
    (g3 : rstripCR L3 = L3) (g4 : rstripCR L4 = L4)
    (g5 : rstripCR L5 = L5) :
    splitLines s = [⟨L1⟩, ⟨L2⟩, ⟨L3⟩, ⟨L4⟩, ⟨L5⟩] := by
  unfold splitLines
  rw [hs]
  rw [splitOnChar_append_sep '\n' L1 _ h1,
    splitOnChar_append_sep '\n' L2 _ h2,
    splitOnChar_append_sep '\n' L3 _ h3,
    splitOnChar_append_sep '\n' L4 _ h4,
    show L5 ++ ['\n'] = L5 ++ '\n' :: [] from rfl,
    splitOnChar_append_sep '\n' L5 _ h5]
  simp only [splitOnChar, fixLines, g1, g2, g3, g4, g5]
  simp

theorem manifestContent_data (c : InstallConfig) :
    (manifestContent c).data =
      ("uid=".data ++ (natRepr c.uid).data) ++ '\n' ::
      (("gid=".data ++ (natRepr c.gid).data) ++ '\n' ::
      (("config_path=".data ++ c.config_path.data) ++ '\n' ::
      (("download_path=".data ++ c.download_path.data) ++ '\n' ::
      (("mount_bind_download_path=".data ++
          c.mount_bind_download_path.data) ++ ['\n'])))) := by
  simp only [manifestContent, String.data_append, List.append_assoc]
  rfl

theorem splitLines_manifest (c : InstallConfig)
    (h1 : noNLCR c.config_path = true) (h2 : noNLCR c.download_path = true)
    (h3 : noNLCR c.mount_bind_download_path = true) :
    splitLines (manifestContent c) =
      ["uid=" ++ natRepr c.uid, "gid=" ++ natRepr c.gid,
       "config_path=" ++ c.config_path,
       "download_path=" ++ c.download_path,
       "mount_bind_download_path=" ++ c.mount_bind_download_path] := by
  have hcp := noNLCR_spec h1
  have hdp := noNLCR_spec h2
  have hmp := noNLCR_spec h3
  have hu := natRepr_good c.uid
  have hg := natRepr_good c.gid
  have hL1 : ∀ ch ∈ "uid=".data ++ (natRepr c.uid).data, ch ≠ '\n' :=
    mem_append_chars (by decide) (fun ch hc => (hu ch hc).2.2.2.2.1)
  have hL2 : ∀ ch ∈ "gid=".data ++ (natRepr c.gid).data, ch ≠ '\n' :=
    mem_append_chars (by decide) (fun ch hc => (hg ch hc).2.2.2.2.1)
  have hL3 : ∀ ch ∈ "config_path=".data ++ c.config_path.data, ch ≠ '\n' :=
    mem_append_chars (by decide) (fun ch hc => (hcp ch hc).1)
  have hL4 : ∀ ch ∈ "download_path=".data ++ c.download_path.data,
      ch ≠ '\n' :=
    mem_append_chars (by decide) (fun ch hc => (hdp ch hc).1)
  have hL5 : ∀ ch ∈ "mount_bind_download_path=".data ++
      c.mount_bind_download_path.data, ch ≠ '\n' :=
    mem_append_chars (by decide) (fun ch hc => (hmp ch hc).1)
  have gdigit : ∀ n : Nat, rstripCR ("uid=".data ++ (natRepr n).data) =
      "uid=".data ++ (natRepr n).data := by
    intro n
    refine rstripCR_eq_self (fun ch hch => ?_)
    rw [List.getLast?_append_of_ne_nil _ (natRepr_ne_nil n)] at hch
    exact (natRepr_good n ch (mem_of_getLast?_eq hch)).2.2.2.2.2
  have gdigit2 : ∀ n : Nat, rstripCR ("gid=".data ++ (natRepr n).data) =
      "gid=".data ++ (natRepr n).data := by
    intro n
    refine rstripCR_eq_self (fun ch hch => ?_)
    rw [List.getLast?_append_of_ne_nil _ (natRepr_ne_nil n)] at hch
    exact (natRepr_good n ch (mem_of_getLast?_eq hch)).2.2.2.2.2
  have gpath : ∀ (pre : List Char) (p : String),
      (∀ ch ∈ p.data, ch ≠ '\n' ∧ ch ≠ '\r') →
      (∀ ch, pre.getLast? = some ch → ch ≠ '\r') →
      rstripCR (pre ++ p.data) = pre ++ p.data := by
    intro pre p hp hpre
    refine rstripCR_eq_self (fun ch hch => ?_)
    rcases hpd : p.data with _ | ⟨x, xs⟩
    · rw [hpd] at hch
      simp only [List.append_nil] at hch
      exact hpre ch hch
    · rw [hpd, List.getLast?_append_of_ne_nil _ (by simp)] at hch
      exact (hp ch (hpd ▸ mem_of_getLast?_eq hch)).2
  rw [show manifestContent c = manifestContent c from rfl]
  rw [splitLines_of_data_five (manifestContent_data c) hL1 hL2 hL3 hL4 hL5
    (gdigit c.uid) (gdigit2 c.gid)
    (gpath _ c.config_path hcp (by decide))
    (gpath _ c.download_path hdp (by decide))
    (gpath _ c.mount_bind_download_path hmp (by decide))]
  rfl

/-! ### Processing single `key=value` lines -/

theorem trim_keyval (k : String) (V : List Char) (hk_ne : k.data ≠ [])
    (hk : ∀ ch ∈ k.data, isUnicodeWhitespace ch = false ∧ ch ≠ '=')
    (hv : ∀ ch, V.getLast? = some ch → isUnicodeWhitespace ch = false) :
    trimList (k.data ++ '=' :: V) = k.data ++ '=' :: V := by
  refine trimList_eq_self (fun ch hch => ?_) (fun ch hch => ?_)
  · rcases hkd : k.data with _ | ⟨x, xs⟩
    · exact absurd hkd hk_ne
    · rw [hkd] at hch
      simp only [List.cons_append, List.head?_cons, Option.some.injEq] at hch
      rw [← hch]
      exact (hk x (hkd ▸ List.mem_cons_self x xs)).1
  · rcases hvd : V with _ | ⟨x, xs⟩
    · rw [hvd] at hch
      have hlit : (k.data ++ '=' :: ([] : List Char)).getLast? =
          some '=' := by
        rw [show '=' :: ([] : List Char) = ['='] from rfl]
        exact List.getLast?_concat _
      rw [hlit, Option.some.injEq] at hch
      rw [← hch]; decide
    · rw [hvd, List.append_cons,
        List.getLast?_append_of_ne_nil _ (List.cons_ne_nil x xs)] at hch
      refine hv ch ?_
      rw [hvd]
      exact hch

theorem split_keyval (k v : String)
    (hk : ∀ ch ∈ k.data, ch ≠ '=') (hv : ∀ ch ∈ v.data, ch ≠ '=') :
    splitOnChar '=' (k.data ++ '=' :: v.data) = [k.data, v.data] := by
  rw [splitOnChar_append_sep '=' _ _ hk, splitOnChar_of_no_sep '=' v.data hv]

theorem processLine_uid (st : RState) (v : String) (n : Nat)
    (hp : parseU32 v.data = some n)
    (hv : ∀ ch ∈ v.data, isUnicodeWhitespace ch = false ∧ ch ≠ '=') :
    processLine st ("uid=" ++ v) = .ok { st with uid := n } := by
  have hd : ("uid=" ++ v).data = "uid".data ++ '=' :: v.data := by
    rw [String.data_append]; rfl
  have htrim := trim_keyval "uid" v.data (by decide) (by decide)
    (fun ch hch => (hv ch (mem_of_getLast?_eq hch)).1)
  have hsplit := split_keyval "uid" v (by decide)
    (fun ch hch => (hv ch hch).2)
  have hne : "uid".data ++ '=' :: v.data ≠ [] := by simp
  simp only [processLine, hd, htrim, hne, if_false, hsplit, List.headD_cons,
    List.drop_one, List.tail_cons, hp]
  simp

theorem processLine_gid (st : RState) (v : String) (n : Nat)
    (hp : parseU32 v.data = some n)
    (hv : ∀ ch ∈ v.data, isUnicodeWhitespace ch = false ∧ ch ≠ '=') :
    processLine st ("gid=" ++ v) = .ok { st with gid := n } := by
  have hd : ("gid=" ++ v).data = "gid".data ++ '=' :: v.data := by
    rw [String.data_append]; rfl
  have htrim := trim_keyval "gid" v.data (by decide) (by decide)
    (fun ch hch => (hv ch (mem_of_getLast?_eq hch)).1)
  have hsplit := split_keyval "gid" v (by decide)
    (fun ch hch => (hv ch hch).2)
  have hne : "gid".data ++ '=' :: v.data ≠ [] := by simp
  simp only [processLine, hd, htrim, hne, if_false, hsplit, List.headD_cons,
    List.drop_one, List.tail_cons, hp]
  simp [show "gid".data ≠ "uid".data from by decide]

theorem processLine_config_path (st : RState) (v : String)
    (hv : ∀ ch ∈ v.data, ch ≠ '=')
    (hlast : ∀ ch, v.data.getLast? = some ch → isUnicodeWhitespace ch = false) :
    processLine st ("config_path=" ++ v) =
      .ok { st with config_path := v } := by
  have hd : ("config_path=" ++ v).data =
      "config_path".data ++ '=' :: v.data := by
    rw [String.data_append]; rfl
  have htrim := trim_keyval "config_path" v.data (by decide) (by decide) hlast
  have hsplit := split_keyval "config_path" v (by decide) hv
  have hne : "config_path".data ++ '=' :: v.data ≠ [] := by simp
  simp only [processLine, hd, htrim, hne, if_false, hsplit, List.headD_cons,
    List.drop_one, List.tail_cons]
  simp [show "config_path".data ≠ "uid".data from by decide,
    show "config_path".data ≠ "gid".data from by decide, mk_data]

theorem processLine_download_path (st : RState) (v : String)
    (hv : ∀ ch ∈ v.data, ch ≠ '=')
    (hlast : ∀ ch, v.data.getLast? = some ch → isUnicodeWhitespace ch = false) :
    processLine st ("download_path=" ++ v) =
      .ok { st with download_path := v } := by
  have hd : ("download_path=" ++ v).data =
      "download_path".data ++ '=' :: v.data := by
    rw [String.data_append]; rfl
  have htrim := trim_keyval "download_path" v.data (by decide) (by decide) hlast
  have hsplit := split_keyval "download_path" v (by decide) hv
  have hne : "download_path".data ++ '=' :: v.data ≠ [] := by simp
  simp only [processLine, hd, htrim, hne, if_false, hsplit, List.headD_cons,
    List.drop_one, List.tail_cons]
  simp [show "download_path".data ≠ "uid".data from by decide,
    show "download_path".data ≠ "gid".data from by decide,
    show "download_path".data ≠ "config_path".data from by decide, mk_data]

theorem processLine_mount_bind (st : RState) (v : String)
    (hv : ∀ ch ∈ v.data, ch ≠ '=')
    (hlast : ∀ ch, v.data.getLast? = some ch → isUnicodeWhitespace ch = false) :
    processLine st ("mount_bind_download_path=" ++ v) =
      .ok { st with mount_bind_download_path := v } := by
  have hd : ("mount_bind_download_path=" ++ v).data =
      "mount_bind_download_path".data ++ '=' :: v.data := by
    rw [String.data_append]; rfl
  have htrim := trim_keyval "mount_bind_download_path" v.data (by decide)
    (by decide) hlast
  have hsplit := split_keyval "mount_bind_download_path" v (by decide) hv
  have hne : "mount_bind_download_path".data ++ '=' :: v.data ≠ [] := by simp
  simp only [processLine, hd, htrim, hne, if_false, hsplit, List.headD_cons,
    List.drop_one, List.tail_cons]
  simp [show "mount_bind_download_path".data ≠ "uid".data from by decide,
    show "mount_bind_download_path".data ≠ "gid".data from by decide,
    show "mount_bind_download_path".data ≠ "config_path".data from by decide,
    show "mount_bind_download_path".data ≠ "download_path".data
      from by decide, mk_data]

/-! ### The write/read round trip -/

theorem read_manifest_roundtrip (c : InstallConfig)
    (h1 : pathOk c.config_path = true) (h2 : pathOk c.download_path = true)
    (h3 : pathOk c.mount_bind_download_path = true)
    (hu : c.uid < 4294967296) (hg : c.gid < 4294967296) :
    read_from_file (some (manifestContent c)) =
      .ok { c with package := none } := by
  have hsl := splitLines_manifest c (pathOk_to_noNLCR h1)
    (pathOk_to_noNLCR h2) (pathOk_to_noNLCR h3)
  have hvu : ∀ ch ∈ (natRepr c.uid).data,
      isUnicodeWhitespace ch = false ∧ ch ≠ '=' := fun ch hch =>
    ⟨(natRepr_good c.uid ch hch).2.1, (natRepr_good c.uid ch hch).2.2.2.1⟩
  have hvg : ∀ ch ∈ (natRepr c.gid).data,
      isUnicodeWhitespace ch = false ∧ ch ≠ '=' := fun ch hch =>
    ⟨(natRepr_good c.gid ch hch).2.1, (natRepr_good c.gid ch hch).2.2.2.1⟩
  obtain ⟨hcpa, hcpl⟩ := pathOk_spec h1
  obtain ⟨hdpa, hdpl⟩ := pathOk_spec h2
  obtain ⟨hmpa, hmpl⟩ := pathOk_spec h3
  simp only [read_from_file]
  rw [hsl]
  simp only [processLines,
    processLine_uid _ _ _ (parseU32_natRepr hu) hvu,
    processLine_gid _ _ _ (parseU32_natRepr hg) hvg,
    processLine_config_path _ _ (fun ch hch => (hcpa ch hch).2.2) hcpl,
    processLine_download_path _ _ (fun ch hch => (hdpa ch hch).2.2) hdpl,
    processLine_mount_bind _ _ (fun ch hch => (hmpa ch hch).2.2) hmpl]

theorem getLast?_manifest (c : InstallConfig) :
    (manifestContent c).data.getLast? = some '\n' := by
  have step : ∀ (A B : List Char), B.getLast? = some '\n' →
      (A ++ '\n' :: B).getLast? = some '\n' := by
    intro A B hB
    rw [List.getLast?_append_of_ne_nil _ (List.cons_ne_nil _ _)]
    rcases B with _ | ⟨x, xs⟩
    · rfl
    · rw [show '\n' :: x :: xs = ['\n'] ++ x :: xs from rfl,
        List.getLast?_append_of_ne_nil _ (List.cons_ne_nil _ _)]
      exact hB
  rw [manifestContent_data]
  exact step _ _ (step _ _ (step _ _ (step _ _ (List.getLast?_concat _))))

/-! ### Claims -/

/-- Claim C1, counterexample: the round trip is not the identity for every
manifest.  With `config_path = "/a=b"` the written file reads back with
`config_path = "/a"`: `split('=').next()` twice truncates the value at the
second `'='`. -/
theorem claim_C1_counterexample :
    write_to_file ⟨1, 2, none, "/a=b", "/d", "/m"⟩ none =
        .ok (some (manifestContent ⟨1, 2, none, "/a=b", "/d", "/m"⟩)) ∧
      read_from_file (some (manifestContent ⟨1, 2, none, "/a=b", "/d", "/m"⟩))
        ≠ .ok ⟨1, 2, none, "/a=b", "/d", "/m"⟩ := by
  constructor
  · rfl
  · decide

/-- Claim C1 (amended): for every manifest whose three path strings contain
no `'='`, no newline, no carriage return, and do not end in whitespace
(and whose uid/gid fit in a `u32`, as the Rust types guarantee), writing
the manifest to an absent file and reading it back yields a manifest equal
to the original in every field, with the `package` field `None`. -/
theorem claim_C1_roundtrip (c : InstallConfig)
    (h1 : pathOk c.config_path = true) (h2 : pathOk c.download_path = true)
    (h3 : pathOk c.mount_bind_download_path = true)
    (hu : c.uid < 4294967296) (hg : c.gid < 4294967296) :
    write_to_file c none = .ok (some (manifestContent c)) ∧
      read_from_file (some (manifestContent c)) =
        .ok { c with package := none } :=
  ⟨rfl, read_manifest_roundtrip c h1 h2 h3 hu hg⟩

/-- Witness for C1 at the spec's own example manifest. -/
theorem claim_C1_witness :
    write_to_file (⟨1000, 1000, none, "/etc/x", "/srv/x", "/mnt/x"⟩ :
          InstallConfig) none =
        .ok (some (manifestContent
          ⟨1000, 1000, none, "/etc/x", "/srv/x", "/mnt/x"⟩)) ∧
      read_from_file (some (manifestContent
          ⟨1000, 1000, none, "/etc/x", "/srv/x", "/mnt/x"⟩)) =
        .ok ⟨1000, 1000, none, "/etc/x", "/srv/x", "/mnt/x"⟩ :=
  claim_C1_roundtrip ⟨1000, 1000, none, "/etc/x", "/srv/x", "/mnt/x"⟩
    (by decide) (by decide) (by decide) (by decide) (by decide)

/-- Claim C2, counterexample: `write_to_file` onto an existing manifest
file does not fail at all — it returns `Ok` and leaves the file as it
was, so there is no AlreadyInstalled error. -/
theorem claim_C2_counterexample :
    write_to_file ⟨1, 2, none, "/c", "/d", "/m"⟩ (some "old") =
      .ok (some "old") := rfl

/-- Claim C2 (amended): if the manifest file already exists,
`write_to_file` succeeds (returns `Ok(())`) and leaves the file exactly
as it was; it never reports an already-installed error. -/
theorem claim_C2_write_existing_succeeds (c : InstallConfig)
    (content : String) :
    write_to_file c (some content) = .ok (some content) := rfl

/-- Claim C3: if the manifest file already exists, `write_to_file`
returns success and leaves the file's contents unchanged (the body of the
writer runs only under `!path.exists()`). -/
theorem claim_C3_write_keeps_existing (c : InstallConfig)
    (content : String) :
    write_to_file c (some content) = .ok (some content) := rfl

/-- Claim C5: with the manifest file absent, `read_from_file` fails with
the not-installed error (`bail!("… not found")`), and the `Run` dispatch
propagates it instead of reaching `Serve`. -/
theorem claim_C5_run_fails_fast :
    read_from_file none = .error .notInstalled ∧
      runCommand none = .failed .notInstalled :=
  ⟨rfl, rfl⟩

/-- Claim C6: `remove_file` succeeds whether or not the manifest file
exists, the file is absent afterwards, and a second `remove_file` also
succeeds, leaving the file absent. -/
theorem claim_C6_remove_idempotent (c c2 : InstallConfig)
    (fs : Option String) :
    ∃ fs1, remove_file c fs = .ok fs1 ∧ fs1 = none ∧
      remove_file c2 fs1 = .ok none := by
  cases fs
  · exact ⟨none, rfl, rfl, rfl⟩
  · exact ⟨none, rfl, rfl, rfl⟩

/-- Claim C7, counterexample: a `download_path` containing a newline makes
the written file have six lines, not five. -/
theorem claim_C7_counterexample :
    write_to_file ⟨0, 0, none, "/c", "/a\nb", "/m"⟩ none =
        .ok (some (manifestContent ⟨0, 0, none, "/c", "/a\nb", "/m"⟩)) ∧
      (splitLines (manifestContent ⟨0, 0, none, "/c", "/a\nb", "/m"⟩)).length
        = 6 := by
  constructor
  · rfl
  · decide

/-- Claim C7 (amended): for every manifest whose three paths contain no
newline and no carriage return, a successful `write_to_file` onto an
absent file produces content that splits into exactly the five lines
`uid=…`, `gid=…`, `config_path=…`, `download_path=…`,
`mount_bind_download_path=…`, in that order, and the content ends with a
newline. -/
theorem claim_C7_five_lines (c : InstallConfig)
    (h1 : noNLCR c.config_path = true) (h2 : noNLCR c.download_path = true)
    (h3 : noNLCR c.mount_bind_download_path = true) :
    write_to_file c none = .ok (some (manifestContent c)) ∧
      splitLines (manifestContent c) =
        ["uid=" ++ natRepr c.uid, "gid=" ++ natRepr c.gid,
         "config_path=" ++ c.config_path,
         "download_path=" ++ c.download_path,
         "mount_bind_download_path=" ++ c.mount_bind_download_path] ∧
      (manifestContent c).data.getLast? = some '\n' :=
  ⟨rfl, splitLines_manifest c h1 h2 h3, getLast?_manifest c⟩

/-- Witness for C7 at the spec's example manifest. -/
theorem claim_C7_witness :
    write_to_file (⟨1000, 1000, none, "/etc/x", "/srv/x", "/mnt/x"⟩ :
          InstallConfig) none =
        .ok (some (manifestContent
          ⟨1000, 1000, none, "/etc/x", "/srv/x", "/mnt/x"⟩)) ∧
      splitLines (manifestContent
          ⟨1000, 1000, none, "/etc/x", "/srv/x", "/mnt/x"⟩) =
        ["uid=1000", "gid=1000", "config_path=/etc/x",
         "download_path=/srv/x", "mount_bind_download_path=/mnt/x"] ∧
      (manifestContent
          ⟨1000, 1000, none, "/etc/x", "/srv/x", "/mnt/x"⟩).data.getLast? =
        some '\n' :=
  claim_C7_five_lines ⟨1000, 1000, none, "/etc/x", "/srv/x", "/mnt/x"⟩
    (by decide) (by decide) (by decide)

/-- Claim C8: the `Uninstall` dispatch discards any error from reading the
manifest (`map_or(None, Some)`) and passes `None` to the Uninstaller, so a
missing or unreadable manifest never makes the dispatch fail. -/
theorem claim_C8_uninstall_discards_read_error (fs : Option String)
    (e : MErr) (h : read_from_file fs = .error e) :
    uninstallArg fs = none := by
  unfold uninstallArg
  rw [h]

/-- Witness for C8: with the manifest absent, the read fails with
not-installed and the Uninstaller receives `None`. -/
theorem claim_C8_witness :
    read_from_file none = .error .notInstalled ∧
      uninstallArg none = none :=
  ⟨rfl, claim_C8_uninstall_discards_read_error none .notInstalled rfl⟩

/-! ### Line-level semantics of the reader (claims C4, C9, C10) -/

theorem processLine_second_eq (st : RState) (v w : String)
    (hv : ∀ ch ∈ v.data, ch ≠ '=') (hw : ∀ ch ∈ w.data, ch ≠ '=')
    (hlast : ∀ ch, w.data.getLast? = some ch → isUnicodeWhitespace ch = false) :
    processLine st ("config_path=" ++ v ++ "=" ++ w) =
      .ok { st with config_path := v } := by
  have hd : ("config_path=" ++ v ++ "=" ++ w).data =
      "config_path".data ++ '=' :: (v.data ++ '=' :: w.data) := by
    simp only [String.data_append, List.append_assoc]
    rfl
  have hVlast : ∀ ch, (v.data ++ '=' :: w.data).getLast? = some ch →
      isUnicodeWhitespace ch = false := by
    intro ch hch
    rw [List.getLast?_append_of_ne_nil _ (List.cons_ne_nil '=' w.data)]
      at hch
    rcases hwd : w.data with _ | ⟨x, xs⟩
    · rw [hwd] at hch
      have hone : ('=' :: ([] : List Char)).getLast? = some '=' := rfl
      rw [hone, Option.some.injEq] at hch
      rw [← hch]; decide
    · rw [hwd, show '=' :: x :: xs = ['='] ++ x :: xs from rfl,
        List.getLast?_append_of_ne_nil _ (List.cons_ne_nil x xs)] at hch
      exact hlast ch (hwd ▸ hch)
  have htrim := trim_keyval "config_path" (v.data ++ '=' :: w.data)
    (by decide) (by decide) hVlast
  have hsplit : splitOnChar '=' ("config_path".data ++ '=' ::
      (v.data ++ '=' :: w.data)) = ["config_path".data, v.data, w.data] := by
    rw [splitOnChar_append_sep '=' _ _ (by decide),
      splitOnChar_append_sep '=' _ _ hv,
      splitOnChar_of_no_sep '=' w.data hw]
  have hne : "config_path".data ++ '=' :: (v.data ++ '=' :: w.data) ≠ [] :=
    by simp
  simp only [processLine, hd, htrim, hne, if_false, hsplit, List.headD_cons,
    List.drop_one, List.tail_cons]
  simp [show "config_path".data ≠ "uid".data from by decide,
    show "config_path".data ≠ "gid".data from by decide, mk_data]

theorem processLine_unknown (st : RState) (l : String)
    (h : lineKey l ∉ knownKeys) : processLine st l = .ok st := by
  simp only [processLine]
  by_cases hb : trimList l.data = []
  · simp [hb]
  · rw [if_neg hb]
    have hlk : lineKey l =
        String.mk ((splitOnChar '=' (trimList l.data)).headD []) := rfl
    have h1 : ¬ (splitOnChar '=' (trimList l.data)).headD [] = "uid".data :=
      fun he => h (by rw [hlk, he]; simp [knownKeys])
    have h2 : ¬ (splitOnChar '=' (trimList l.data)).headD [] = "gid".data :=
      fun he => h (by rw [hlk, he]; simp [knownKeys])
    have h3 : ¬ (splitOnChar '=' (trimList l.data)).headD [] =
        "config_path".data :=
      fun he => h (by rw [hlk, he]; simp [knownKeys])
    have h4 : ¬ (splitOnChar '=' (trimList l.data)).headD [] =
        "download_path".data :=
      fun he => h (by rw [hlk, he]; simp [knownKeys])
    have h5 : ¬ (splitOnChar '=' (trimList l.data)).headD [] =
        "mount_bind_download_path".data :=
      fun he => h (by rw [hlk, he]; simp [knownKeys])
    rw [if_neg h1, if_neg h2, if_neg h3, if_neg h4, if_neg h5]

theorem processLines_unknown (ls : List String) (st : RState)
    (h : ∀ l ∈ ls, lineKey l ∉ knownKeys) : processLines ls st = .ok st := by
  induction ls with
  | nil => rfl
  | cons l ls ih =>
    rw [processLines, processLine_unknown st l (h l (List.mem_cons_self l ls))]
    exact ih (fun l2 hl2 => h l2 (List.mem_cons_of_mem l hl2))

theorem read_all_unknown (content : String)
    (h : ∀ l ∈ splitLines content, lineKey l ∉ knownKeys) :
    read_from_file (some content) = .ok ⟨0, 0, none, "", "", ""⟩ := by
  simp only [read_from_file]
  rw [processLines_unknown _ _ h]

theorem read_package_none (content : String) (cfg : InstallConfig)
    (h : read_from_file (some content) = .ok cfg) : cfg.package = none := by
  simp only [read_from_file] at h
  rcases hp : processLines (splitLines content) ⟨0, 0, "", "", ""⟩ with e | st
  · rw [hp] at h
    exact absurd h (by simp)
  · rw [hp] at h
    simp only [Except.ok.injEq] at h
    rw [← h]

/-- Claim C4, counterexample: the value is not the entire remainder of the
line after the first `'='`.  For the line `config_path=/a=b` the reader
stores `/a`, not `/a=b`. -/
theorem claim_C4_counterexample :
    read_from_file (some "config_path=/a=b\n") =
        .ok ⟨0, 0, none, "/a", "", ""⟩ ∧ ("/a" : String) ≠ "/a=b" := by
  constructor
  · decide
  · decide

/-- Claim C4 (amended): `read_from_file` parses line by line, splitting on
`'='`; the value is the text strictly between the first and the second
`'='` of the trimmed line (the whole remainder only when there is no
second `'='`, as in the other `processLine_…` lemmas); blank lines and
lines with unknown keys are ignored; keys never mentioned keep their
defaults (zero for uid/gid, empty for the paths); and the returned
manifest's `package` field is always `None`. -/
theorem claim_C4_read_semantics :
    (∀ (st : RState) (v w : String),
      (∀ ch ∈ v.data, ch ≠ '=') → (∀ ch ∈ w.data, ch ≠ '=') →
      (∀ ch, w.data.getLast? = some ch → isUnicodeWhitespace ch = false) →
      processLine st ("config_path=" ++ v ++ "=" ++ w) =
        .ok { st with config_path := v }) ∧
    (∀ (st : RState) (l : String), lineKey l ∉ knownKeys →
      processLine st l = .ok st) ∧
    (∀ content, (∀ l ∈ splitLines content, lineKey l ∉ knownKeys) →
      read_from_file (some content) = .ok ⟨0, 0, none, "", "", ""⟩) ∧
    (∀ content cfg, read_from_file (some content) = .ok cfg →
      cfg.package = none) :=
  ⟨processLine_second_eq, processLine_unknown, read_all_unknown,
    read_package_none⟩

/-- Witness for C4: the value of `config_path=/a=b` is `/a`; a line with
an unknown key and a blank line are ignored and every unmentioned key
keeps its default; the result's `package` is `None`. -/
theorem claim_C4_witness :
    processLine ⟨7, 8, "x", "y", "z"⟩ ("config_path=" ++ "/a" ++ "=" ++ "b")
        = .ok ⟨7, 8, "/a", "y", "z"⟩ ∧
      processLine ⟨7, 8, "x", "y", "z"⟩ "bogus=1" =
        .ok ⟨7, 8, "x", "y", "z"⟩ ∧
      read_from_file (some "bogus=1\n\n") = .ok ⟨0, 0, none, "", "", ""⟩ ∧
      (⟨0, 0, none, "", "", ""⟩ : InstallConfig).package = none :=
  ⟨claim_C4_read_semantics.1 ⟨7, 8, "x", "y", "z"⟩ "/a" "b" (by decide)
      (by decide) (by decide),
    claim_C4_read_semantics.2.1 ⟨7, 8, "x", "y", "z"⟩ "bogus=1" (by decide),
    claim_C4_read_semantics.2.2.1 "bogus=1\n\n" (by decide),
    claim_C4_read_semantics.2.2.2 "bogus=1\n\n" ⟨0, 0, none, "", "", ""⟩
      (by decide)⟩

theorem processLine_bare_int_key {st : RState} {l : String}
    (h : trimList l.data = "uid".data ∨ trimList l.data = "gid".data) :
    processLine st l = .error .parseErr := by
  rcases h with h | h <;>
    · simp only [processLine, h]
      rfl

theorem processLines_error_of_mem (ls : List String) (l0 : String)
    (hl0 : ∀ st : RState, ∃ e0, processLine st l0 = .error e0) :
    l0 ∈ ls → ∀ st, ∃ e, processLines ls st = .error e := by
  induction ls with
  | nil => intro h; exact absurd h (List.not_mem_nil l0)
  | cons l ls ih =>
    intro h st
    rcases List.mem_cons.mp h with rfl | hm
    · obtain ⟨e0, he0⟩ := hl0 st
      exact ⟨e0, by rw [processLines, he0]⟩
    · rcases hpl : processLine st l with e | st2
      · exact ⟨e, by rw [processLines, hpl]⟩
      · obtain ⟨e, he⟩ := ih hm st2
        exact ⟨e, by rw [processLines, hpl]; exact he⟩

/-- Claim C9: a manifest file with a line that trims to a bare integer key
(`uid` or `gid`, no `'='`, no value) makes `read_from_file` fail: the
empty value reaches `value.parse::<u32>()` and that fails.  The line is
not ignored as blank or unknown. -/
theorem claim_C9_bare_int_key_errors (content : String) (l : String)
    (hl : l ∈ splitLines content)
    (h : trimList l.data = "uid".data ∨ trimList l.data = "gid".data) :
    ∃ e, read_from_file (some content) = .error e := by
  obtain ⟨e, he⟩ := processLines_error_of_mem (splitLines content) l
    (fun st => ⟨.parseErr, processLine_bare_int_key h⟩) hl ⟨0, 0, "", "", ""⟩
  refine ⟨e, ?_⟩
  simp only [read_from_file]
  rw [he]

/-- Witness for C9: the one-line file `uid` (no `'='`) is rejected. -/
theorem claim_C9_witness :
    "uid" ∈ splitLines "uid\n" ∧
      (trimList ("uid" : String).data = "uid".data ∨
        trimList ("uid" : String).data = "gid".data) ∧
      ∃ e, read_from_file (some "uid\n") = .error e :=
  ⟨by decide, Or.inl (by decide),
    claim_C9_bare_int_key_errors "uid\n" "uid" (by decide)
      (Or.inl (by decide))⟩

/-! ### Later lines overwrite earlier ones (claim C10) -/

theorem processLine_preserves {st st2 : RState} {l : String}
    (h : processLine st l = .ok st2) :
    (lineKey l ≠ "uid" → st2.uid = st.uid) ∧
    (lineKey l ≠ "gid" → st2.gid = st.gid) ∧
    (lineKey l ≠ "config_path" → st2.config_path = st.config_path) ∧
    (lineKey l ≠ "download_path" → st2.download_path = st.download_path) ∧
    (lineKey l ≠ "mount_bind_download_path" →
      st2.mount_bind_download_path = st.mount_bind_download_path) := by
  have hlk : lineKey l =
      String.mk ((splitOnChar '=' (trimList l.data)).headD []) := rfl
  simp only [processLine] at h
  by_cases hb : trimList l.data = []
  · rw [if_pos hb] at h
    injection h with h2
    subst h2
    exact ⟨fun _ => rfl, fun _ => rfl, fun _ => rfl, fun _ => rfl,
      fun _ => rfl⟩
  · rw [if_neg hb] at h
    by_cases h1 : (splitOnChar '=' (trimList l.data)).headD [] = "uid".data
    · rw [if_pos h1] at h
      have hkey : lineKey l = "uid" := by rw [hlk, h1]
      rcases hpv : parseU32
          (((splitOnChar '=' (trimList l.data)).drop 1).headD [])
        with _ | n
      · rw [hpv] at h
        exact absurd h (by simp)
      · simp only [hpv] at h
        injection h with h2
        subst h2
        exact ⟨fun hne => absurd hkey hne, fun _ => rfl, fun _ => rfl,
          fun _ => rfl, fun _ => rfl⟩
    · rw [if_neg h1] at h
      by_cases h2c : (splitOnChar '=' (trimList l.data)).headD [] =
          "gid".data
      · rw [if_pos h2c] at h
        have hkey : lineKey l = "gid" := by rw [hlk, h2c]
        rcases hpv : parseU32
            (((splitOnChar '=' (trimList l.data)).drop 1).headD [])
          with _ | n
        · rw [hpv] at h
          exact absurd h (by simp)
        · simp only [hpv] at h
          injection h with h2
          subst h2
          exact ⟨fun _ => rfl, fun hne => absurd hkey hne, fun _ => rfl,
            fun _ => rfl, fun _ => rfl⟩
      · rw [if_neg h2c] at h
        by_cases h3 : (splitOnChar '=' (trimList l.data)).headD [] =
            "config_path".data
        · rw [if_pos h3] at h
          have hkey : lineKey l = "config_path" := by rw [hlk, h3]
          injection h with h2
          subst h2
          exact ⟨fun _ => rfl, fun _ => rfl, fun hne => absurd hkey hne,
            fun _ => rfl, fun _ => rfl⟩
        · rw [if_neg h3] at h
          by_cases h4 : (splitOnChar '=' (trimList l.data)).headD [] =
              "download_path".data
          · rw [if_pos h4] at h
            have hkey : lineKey l = "download_path" := by rw [hlk, h4]
            injection h with h2
            subst h2
            exact ⟨fun _ => rfl, fun _ => rfl, fun _ => rfl,
              fun hne => absurd hkey hne, fun _ => rfl⟩
          · rw [if_neg h4] at h
            by_cases h5 : (splitOnChar '=' (trimList l.data)).headD [] =
                "mount_bind_download_path".data
            · rw [if_pos h5] at h
              have hkey : lineKey l = "mount_bind_download_path" := by
                rw [hlk, h5]
              injection h with h2
              subst h2
              exact ⟨fun _ => rfl, fun _ => rfl, fun _ => rfl,
                fun _ => rfl, fun hne => absurd hkey hne⟩
            · rw [if_neg h5] at h
              injection h with h2
              subst h2
              exact ⟨fun _ => rfl, fun _ => rfl, fun _ => rfl,
                fun _ => rfl, fun _ => rfl⟩

theorem processLines_preserves {ls : List String} {st st2 : RState}
    (h : processLines ls st = .ok st2) :
    ((∀ l ∈ ls, lineKey l ≠ "uid") → st2.uid = st.uid) ∧
    ((∀ l ∈ ls, lineKey l ≠ "gid") → st2.gid = st.gid) ∧
    ((∀ l ∈ ls, lineKey l ≠ "config_path") →
      st2.config_path = st.config_path) ∧
    ((∀ l ∈ ls, lineKey l ≠ "download_path") →
      st2.download_path = st.download_path) ∧
    ((∀ l ∈ ls, lineKey l ≠ "mount_bind_download_path") →
      st2.mount_bind_download_path = st.mount_bind_download_path) := by
  induction ls generalizing st with
  | nil =>
    simp only [processLines] at h
    injection h with h2
    subst h2
    exact ⟨fun _ => rfl, fun _ => rfl, fun _ => rfl, fun _ => rfl,
      fun _ => rfl⟩
  | cons l ls ih =>
    rw [processLines] at h
    rcases hpl : processLine st l with e | stm
    · rw [hpl] at h
      exact absurd h (by simp)
    · simp only [hpl] at h
      have hline := processLine_preserves hpl
      have htail := ih h
      have hmem : ∀ {P : String → Prop}, (∀ x ∈ l :: ls, P x) →
          (P l ∧ ∀ x ∈ ls, P x) := fun hall =>
        ⟨hall l (List.mem_cons_self l ls),
          fun x hx => hall x (List.mem_cons_of_mem l hx)⟩
      refine ⟨fun hk => ?_, fun hk => ?_, fun hk => ?_, fun hk => ?_,
        fun hk => ?_⟩
      · rw [htail.1 (hmem hk).2, hline.1 (hmem hk).1]
      · rw [htail.2.1 (hmem hk).2, hline.2.1 (hmem hk).1]
      · rw [htail.2.2.1 (hmem hk).2, hline.2.2.1 (hmem hk).1]
      · rw [htail.2.2.2.1 (hmem hk).2, hline.2.2.2.1 (hmem hk).1]
      · rw [htail.2.2.2.2 (hmem hk).2, hline.2.2.2.2 (hmem hk).1]

theorem processLines_append {ls1 ls2 : List String} {st st2 : RState}
    (h : processLines (ls1 ++ ls2) st = .ok st2) :
    ∃ stm, processLines ls1 st = .ok stm ∧
      processLines ls2 stm = .ok st2 := by
  induction ls1 generalizing st with
  | nil => exact ⟨st, rfl, h⟩
  | cons l ls ih =>
    rw [List.cons_append, processLines] at h
    rcases hpl : processLine st l with e | stm
    · rw [hpl] at h
      exact absurd h (by simp)
    · simp only [hpl] at h
      obtain ⟨stm2, hA, hB⟩ := ih h
      exact ⟨stm2, by rw [processLines, hpl]; exact hA, hB⟩

theorem read_ok_decomp {content : String} {cfg : InstallConfig}
    (h : read_from_file (some content) = .ok cfg) :
    ∃ st : RState,
      processLines (splitLines content) ⟨0, 0, "", "", ""⟩ = .ok st ∧
      cfg = ⟨st.uid, st.gid, none, st.config_path, st.download_path,
        st.mount_bind_download_path⟩ := by
  simp only [read_from_file] at h
  rcases hp : processLines (splitLines content) ⟨0, 0, "", "", ""⟩
    with e | st
  · rw [hp] at h
    exact absurd h (by simp)
  · rw [hp] at h
    simp only [Except.ok.injEq] at h
    exact ⟨st, rfl, h.symm⟩

theorem last_uid_wins (content : String) (ls1 ls2 : List String)
    (v : String) (n : Nat) (cfg : InstallConfig)
    (hsl : splitLines content = ls1 ++ ("uid=" ++ v) :: ls2)
    (hp : parseU32 v.data = some n)
    (hv : ∀ ch ∈ v.data, isUnicodeWhitespace ch = false ∧ ch ≠ '=')
    (hk : ∀ l ∈ ls2, lineKey l ≠ "uid")
    (h : read_from_file (some content) = .ok cfg) : cfg.uid = n := by
  obtain ⟨st, hpr, hcfg⟩ := read_ok_decomp h
  rw [hsl] at hpr
  obtain ⟨stm, hA, hB⟩ := processLines_append hpr
  simp only [processLines, processLine_uid stm v n hp hv] at hB
  have := (processLines_preserves hB).1 hk
  rw [hcfg]
  exact this

theorem last_gid_wins (content : String) (ls1 ls2 : List String)
    (v : String) (n : Nat) (cfg : InstallConfig)
    (hsl : splitLines content = ls1 ++ ("gid=" ++ v) :: ls2)
    (hp : parseU32 v.data = some n)
    (hv : ∀ ch ∈ v.data, isUnicodeWhitespace ch = false ∧ ch ≠ '=')
    (hk : ∀ l ∈ ls2, lineKey l ≠ "gid")
    (h : read_from_file (some content) = .ok cfg) : cfg.gid = n := by
  obtain ⟨st, hpr, hcfg⟩ := read_ok_decomp h
  rw [hsl] at hpr
  obtain ⟨stm, hA, hB⟩ := processLines_append hpr
  simp only [processLines, processLine_gid stm v n hp hv] at hB
  have := (processLines_preserves hB).2.1 hk
  rw [hcfg]
  exact this

theorem last_config_path_wins (content : String) (ls1 ls2 : List String)
    (v : String) (cfg : InstallConfig)
    (hsl : splitLines content = ls1 ++ ("config_path=" ++ v) :: ls2)
    (hv : ∀ ch ∈ v.data, ch ≠ '=')
    (hlast : ∀ ch, v.data.getLast? = some ch → isUnicodeWhitespace ch = false)
    (hk : ∀ l ∈ ls2, lineKey l ≠ "config_path")
    (h : read_from_file (some content) = .ok cfg) : cfg.config_path = v := by
  obtain ⟨st, hpr, hcfg⟩ := read_ok_decomp h
  rw [hsl] at hpr
  obtain ⟨stm, hA, hB⟩ := processLines_append hpr
  simp only [processLines, processLine_config_path stm v hv hlast] at hB
  have := (processLines_preserves hB).2.2.1 hk
  rw [hcfg]
  exact this

theorem last_download_path_wins (content : String) (ls1 ls2 : List String)
    (v : String) (cfg : InstallConfig)
    (hsl : splitLines content = ls1 ++ ("download_path=" ++ v) :: ls2)
    (hv : ∀ ch ∈ v.data, ch ≠ '=')
    (hlast : ∀ ch, v.data.getLast? = some ch → isUnicodeWhitespace ch = false)
    (hk : ∀ l ∈ ls2, lineKey l ≠ "download_path")
    (h : read_from_file (some content) = .ok cfg) :
    cfg.download_path = v := by
  obtain ⟨st, hpr, hcfg⟩ := read_ok_decomp h
  rw [hsl] at hpr
  obtain ⟨stm, hA, hB⟩ := processLines_append hpr
  simp only [processLines, processLine_download_path stm v hv hlast] at hB
  have := (processLines_preserves hB).2.2.2.1 hk
  rw [hcfg]
  exact this

theorem last_mount_bind_wins (content : String) (ls1 ls2 : List String)
    (v : String) (cfg : InstallConfig)
    (hsl : splitLines content =
      ls1 ++ ("mount_bind_download_path=" ++ v) :: ls2)
    (hv : ∀ ch ∈ v.data, ch ≠ '=')
    (hlast : ∀ ch, v.data.getLast? = some ch → isUnicodeWhitespace ch = false)
    (hk : ∀ l ∈ ls2, lineKey l ≠ "mount_bind_download_path")
    (h : read_from_file (some content) = .ok cfg) :
    cfg.mount_bind_download_path = v := by
  obtain ⟨st, hpr, hcfg⟩ := read_ok_decomp h
  rw [hsl] at hpr
  obtain ⟨stm, hA, hB⟩ := processLines_append hpr
  simp only [processLines, processLine_mount_bind stm v hv hlast] at hB
  have := (processLines_preserves hB).2.2.2.2 hk
  rw [hcfg]
  exact this

/-- Claim C10: when the file holds several lines with the same known key,
the parsed manifest carries the value of the last such line — each
well-formed `key=value` line overwrites the value previously stored for
its key, for every one of the five keys. -/
theorem claim_C10_last_line_wins :
    (∀ (content : String) (ls1 ls2 : List String) (v : String) (n : Nat)
      (cfg : InstallConfig),
      splitLines content = ls1 ++ ("uid=" ++ v) :: ls2 →
      parseU32 v.data = some n →
      (∀ ch ∈ v.data, isUnicodeWhitespace ch = false ∧ ch ≠ '=') →
      (∀ l ∈ ls2, lineKey l ≠ "uid") →
      read_from_file (some content) = .ok cfg → cfg.uid = n) ∧
    (∀ (content : String) (ls1 ls2 : List String) (v : String) (n : Nat)
      (cfg : InstallConfig),
      splitLines content = ls1 ++ ("gid=" ++ v) :: ls2 →
      parseU32 v.data = some n →
      (∀ ch ∈ v.data, isUnicodeWhitespace ch = false ∧ ch ≠ '=') →
      (∀ l ∈ ls2, lineKey l ≠ "gid") →
      read_from_file (some content) = .ok cfg → cfg.gid = n) ∧
    (∀ (content : String) (ls1 ls2 : List String) (v : String)
      (cfg : InstallConfig),
      splitLines content = ls1 ++ ("config_path=" ++ v) :: ls2 →
      (∀ ch ∈ v.data, ch ≠ '=') →
      (∀ ch, v.data.getLast? = some ch → isUnicodeWhitespace ch = false) →
      (∀ l ∈ ls2, lineKey l ≠ "config_path") →
      read_from_file (some content) = .ok cfg → cfg.config_path = v) ∧
    (∀ (content : String) (ls1 ls2 : List String) (v : String)
      (cfg : InstallConfig),
      splitLines content = ls1 ++ ("download_path=" ++ v) :: ls2 →
      (∀ ch ∈ v.data, ch ≠ '=') →
      (∀ ch, v.data.getLast? = some ch → isUnicodeWhitespace ch = false) →
      (∀ l ∈ ls2, lineKey l ≠ "download_path") →
      read_from_file (some content) = .ok cfg → cfg.download_path = v) ∧
    (∀ (content : String) (ls1 ls2 : List String) (v : String)
      (cfg : InstallConfig),
      splitLines content = ls1 ++ ("mount_bind_download_path=" ++ v) :: ls2 →
      (∀ ch ∈ v.data, ch ≠ '=') →
      (∀ ch, v.data.getLast? = some ch → isUnicodeWhitespace ch = false) →
      (∀ l ∈ ls2, lineKey l ≠ "mount_bind_download_path") →
      read_from_file (some content) = .ok cfg →
      cfg.mount_bind_download_path = v) :=
  ⟨last_uid_wins, last_gid_wins, last_config_path_wins,
    last_download_path_wins, last_mount_bind_wins⟩

/-- Witness for C10: for each of the five keys, a two-line file with the
same key twice reads back with the second value. -/
theorem claim_C10_witness :
    (⟨7, 0, none, "", "", ""⟩ : InstallConfig).uid = 7 ∧
      (⟨0, 9, none, "", "", ""⟩ : InstallConfig).gid = 9 ∧
      (⟨0, 0, none, "/b", "", ""⟩ : InstallConfig).config_path = "/b" ∧
      (⟨0, 0, none, "", "/d2", ""⟩ : InstallConfig).download_path = "/d2" ∧
      (⟨0, 0, none, "", "", "/m2"⟩ :
        InstallConfig).mount_bind_download_path = "/m2" :=
  ⟨claim_C10_last_line_wins.1 "uid=1\nuid=7\n" ["uid=1"] [] "7" 7
      ⟨7, 0, none, "", "", ""⟩ (by decide) (by decide) (by decide)
      (by decide) (by decide),
    claim_C10_last_line_wins.2.1 "gid=1\ngid=9\n" ["gid=1"] [] "9" 9
      ⟨0, 9, none, "", "", ""⟩ (by decide) (by decide) (by decide)
      (by decide) (by decide),
    claim_C10_last_line_wins.2.2.1 "config_path=/a\nconfig_path=/b\n"
      ["config_path=/a"] [] "/b" ⟨0, 0, none, "/b", "", ""⟩ (by decide)
      (by decide) (by decide) (by decide) (by decide),
    claim_C10_last_line_wins.2.2.2.1 "download_path=/d1\ndownload_path=/d2\n"
      ["download_path=/d1"] [] "/d2" ⟨0, 0, none, "", "/d2", ""⟩ (by decide)
      (by decide) (by decide) (by decide) (by decide),
    claim_C10_last_line_wins.2.2.2.2
      "mount_bind_download_path=/m1\nmount_bind_download_path=/m2\n"
      ["mount_bind_download_path=/m1"] [] "/m2" ⟨0, 0, none, "", "", "/m2"⟩
      (by decide) (by decide) (by decide) (by decide) (by decide)⟩

end Xunlei
